import Mathlib

/-!
Verification development for the mojenX Tor manager (`tor.py`).

The script's configuration rewrite (`read_torrc` / `write_torrc` /
`backup_torrc`), exit-node selection (`set_exitnodes`, `fastest_country`),
control-port authentication (`_find_cookie_file`, `_auth_control`,
`send_newnym`) and the periodic rotation loop (`_auto_rotate_loop`) are
embedded shallowly below.  Strings are Lean `String`s (lists of characters);
Python string operations (`strip`, `lower`, `split`, `int`, `startswith`,
`in`) are reproduced on the character-list level.  Whitespace is modelled as
the ASCII whitespace recognised by `Char.isWhitespace` (space, tab, CR, LF);
Python's `str.strip`/`str.split` strip a superset of these, which coincides
on the ASCII configuration text this program handles.  File-system side
effects are modelled as explicit operation traces (`FsOp`), network and
clock effects as explicit environment records.
-/

namespace MojenxTor

/-! ## Python string primitives on character lists -/

/-- Whitespace test used by the Python `strip`/`split` models. -/
def pyIsSpace (c : Char) : Bool := c.isWhitespace

/-- Model of Python `str.lstrip()` on character lists. -/
def stripLData (l : List Char) : List Char := l.dropWhile pyIsSpace

/-- Model of Python `str.rstrip()` on character lists. -/
def stripRData (l : List Char) : List Char := (l.reverse.dropWhile pyIsSpace).reverse

/-- Model of Python `str.strip()` on character lists. -/
def stripData (l : List Char) : List Char := stripRData (stripLData l)

/-- Model of Python `str.lower()` on character lists (ASCII case mapping). -/
def lowerData (l : List Char) : List Char := l.map Char.toLower

/-- Single pass of the Python `str.split()` model: `cur` holds the characters
of the word being scanned, in reverse. -/
def wordsAux (cur : List Char) : List Char → List (List Char)
  | [] => if cur.isEmpty then [] else [cur.reverse]
  | c :: cs =>
    if pyIsSpace c then
      if cur.isEmpty then wordsAux [] cs else cur.reverse :: wordsAux [] cs
    else wordsAux (c :: cur) cs

/-- Model of Python `str.split()` (split on runs of whitespace, dropping
empty fields) on character lists. -/
def wordsData (l : List Char) : List (List Char) := wordsAux [] l

/-- String wrapper for `stripData`: Python `raw.strip()`. -/
def pyStrip (s : String) : String := ⟨stripData s.data⟩

/-- String wrapper for `lowerData`: Python `t.lower()`. -/
def pyLower (s : String) : String := ⟨lowerData s.data⟩

/-- String wrapper for `wordsData`: Python `t.split()`. -/
def pyWords (s : String) : List String := (wordsData s.data).map (fun w => (⟨w⟩ : String))

/-- Model of Python `needle in hay` on character lists (contiguous substring). -/
def containsSub (n : List Char) : List Char → Bool
  | [] => n.isEmpty
  | c :: t => n.isPrefixOf (c :: t) || containsSub n t

/-- Validity of a Python integer-literal digit tail: after an initial digit,
digits with single interior underscores (`digRest` is applied to the
characters after the first digit). -/
def digRest : List Char → Bool
  | [] => true
  | '_' :: c :: r => c.isDigit && digRest r
  | '_' :: [] => false
  | c :: r => c.isDigit && digRest r

/-- Validity of a Python decimal digit sequence (`int` accepts digits with
single interior underscores, e.g. `9_050`). -/
def pyDigitsOk : List Char → Bool
  | [] => false
  | c :: rest => c.isDigit && digRest rest

/-- Numeric value of a digit sequence, skipping underscores. -/
def digVal (l : List Char) : Nat :=
  l.foldl (fun a c => if c = '_' then a else a * 10 + (c.toNat - 48)) 0

/-- Model of Python `int(s)`: strip whitespace, optional sign, decimal
digits; `none` models the `ValueError` that `tor.py` catches with
`except: pass`. -/
def pyInt (s : String) : Option Int :=
  match stripData s.data with
  | '+' :: r => if pyDigitsOk r then some (digVal r) else none
  | '-' :: r => if pyDigitsOk r then some (-(digVal r : Int)) else none
  | r => if pyDigitsOk r then some (digVal r) else none

/-- Key extraction used by `write_torrc`'s first pass:
`t = raw.strip(); tl = t.lower(); key = tl.split()[0] if tl else ""`.
(When `tl` is nonempty its `split()` is nonempty, so taking the head of
`wordsData` with default `""` is exact.) -/
def keyOf (raw : String) : String :=
  let tl := lowerData (stripData raw.data)
  match wordsData tl with
  | [] => ""
  | w :: _ => (⟨w⟩ : String)

/-! ## `read_torrc` -/

/-- Defaults `DEFAULT_SOCKS` / `DEFAULT_CONTROL` from `tor.py`. -/
def DEFAULT_SOCKS : Int := 9050

/-- Default control port. -/
def DEFAULT_CONTROL : Int := 9051

/-- Accumulator of `read_torrc`'s scan: `socks, control, exitnodes,
use_bridges`. -/
structure ReadState where
  socks : Int
  control : Int
  exitnodes : String
  use_bridges : Bool
deriving DecidableEq, Repr

/-- One iteration of `read_torrc`'s `for raw in lines` loop, mirroring the
`elif` chain of `tor.py`. -/
def readLine (st : ReadState) (raw : String) : ReadState :=
  let t : List Char := stripData raw.data
  let tl : List Char := lowerData t
  if "socksport".data.isPrefixOf tl then
    match wordsData t with
    | _ :: p1 :: _ =>
      match pyInt (⟨p1⟩ : String) with
      | some n => { st with socks := n }
      | none => st
    | _ => st
  else if "controlport".data.isPrefixOf tl then
    match wordsData t with
    | _ :: p1 :: _ =>
      match pyInt (⟨p1⟩ : String) with
      | some n => { st with control := n }
      | none => st
    | _ => st
  else if "ExitNodes".data.isPrefixOf t then
    { st with exitnodes :=
        if ' ' ∈ t then (⟨(t.dropWhile (fun c => c ≠ ' ')).drop 1⟩ : String) else "" }
  else if "usebridges".data.isPrefixOf tl then
    match wordsData t with
    | _ :: p1 :: _ =>
      { st with use_bridges :=
          ((⟨p1⟩ : String) == "1" || (⟨p1⟩ : String) == "true" ||
           (⟨p1⟩ : String) == "yes" || (⟨p1⟩ : String) == "on") }
    | _ => st
  else st

/-- `read_torrc`, as a function of the file's line list (a missing or
unreadable file is the empty line list, per `tor.py`). -/
def readTorrc (lines : List String) : ReadState :=
  lines.foldl readLine ⟨DEFAULT_SOCKS, DEFAULT_CONTROL, "", false⟩

/-! ## `write_torrc` -/

/-- The recognized-key tuple of `write_torrc`'s first pass (`key in (...)`). -/
def SKIP_KEYS : List String :=
  ["socksport", "exitnodes", "controlport", "cookieauthentication", "cookieauthfile",
   "strictnodes", "usebridges", "clientpreferipv6or", "clientuseipv6", "avoiddiskwrites",
   "bridge", "clienttransportplugin"]

/-- The keyword arguments of `write_torrc` (`None` = argument not supplied). -/
structure WriteArgs where
  port : Option Int := none
  exitnodes : Option String := none
  control_port : Option Int := none
  cookie_auth : Option Bool := none
  cookie_file : Option String := none
  strict_nodes : Option Bool := none
  use_bridges : Option Bool := none
  bridges : Option (List String) := none
  optimizations : Bool := false

/-- First pass of `write_torrc`: drop every line whose key is recognized,
keep the rest verbatim and in order. -/
def keptLines (lines : List String) : List String :=
  lines.filter (fun raw => !(SKIP_KEYS.contains (keyOf raw)))

/-- Python boolean-to-string used by `emit`: `"1" if b else "0"`. -/
def b01 (b : Bool) : String := if b then "1" else "0"

/-- The `SocksPort` line: `if port: emit(new) else: emit(prior)` —
Python truthiness, so `port=0` falls through to the prior value. -/
def sockSeg (port : Option Int) (st : ReadState) : List String :=
  match port with
  | some p => if p ≠ 0 then ["SocksPort " ++ toString p] else ["SocksPort " ++ toString st.socks]
  | none => ["SocksPort " ++ toString st.socks]

/-- The `ControlPort` line, with the same truthiness test. -/
def ctrlSeg (control_port : Option Int) (st : ReadState) : List String :=
  match control_port with
  | some p => if p ≠ 0 then ["ControlPort " ++ toString p] else ["ControlPort " ++ toString st.control]
  | none => ["ControlPort " ++ toString st.control]

/-- The `CookieAuthentication` line (`if cookie_auth is not None`). -/
def cookieAuthSeg (cookie_auth : Option Bool) : List String :=
  match cookie_auth with
  | some b => ["CookieAuthentication " ++ b01 b]
  | none => []

/-- The `CookieAuthFile` line (`if cookie_file:` — string truthiness, the
empty string is skipped). -/
def cookieFileSeg (cookie_file : Option String) : List String :=
  match cookie_file with
  | some f => if f ≠ "" then ["CookieAuthFile " ++ f] else []
  | none => []

/-- The `ExitNodes` line (`if exitnodes is not None`). -/
def exitSeg (exitnodes : Option String) : List String :=
  match exitnodes with
  | some e => ["ExitNodes " ++ e]
  | none => []

/-- The `StrictNodes` line (`if strict_nodes is not None`). -/
def strictSeg (strict_nodes : Option Bool) : List String :=
  match strict_nodes with
  | some b => ["StrictNodes " ++ b01 b]
  | none => []

/-- The `UseBridges` line: always emitted, from the override or from the
prior file's value. -/
def useBridgesSeg (use_bridges : Option Bool) (st : ReadState) : List String :=
  ["UseBridges " ++ b01 (match use_bridges with | some b => b | none => st.use_bridges)]

/-- The `Bridge` lines (`if bridges:` — list truthiness, `None` and `[]`
are both skipped). -/
def bridgeSeg (bridges : Option (List String)) : List String :=
  match bridges with
  | some bs => if bs.isEmpty then [] else bs.map (fun b => "Bridge " ++ b)
  | none => []

/-- The three optimization lines (`if optimizations:`). -/
def optSeg (optimizations : Bool) : List String :=
  if optimizations then ["AvoidDiskWrites 1", "ClientUseIPv6 1", "ClientPreferIPv6OR 1"] else []

/-- The lines appended after the first pass, in the exact order of
`write_torrc`.  (The Python `replaced_keys` set that `emit` fills is never
read, so it has no observable effect and is not modelled.) -/
def emittedLines (a : WriteArgs) (st : ReadState) : List String :=
  sockSeg a.port st ++ ctrlSeg a.control_port st ++ cookieAuthSeg a.cookie_auth ++
  cookieFileSeg a.cookie_file ++ exitSeg a.exitnodes ++ strictSeg a.strict_nodes ++
  useBridgesSeg a.use_bridges st ++ bridgeSeg a.bridges ++ optSeg a.optimizations

/-- The output line list of `write_torrc`: kept unrecognized lines followed
by the emitted configuration. -/
def writeTorrcLines (a : WriteArgs) (lines : List String) : List String :=
  keptLines lines ++ emittedLines a (readTorrc lines)

/-- The file content written by `write_torrc`: `"\n".join(out) + "\n"`. -/
def torrcContent (a : WriteArgs) (lines : List String) : String :=
  String.intercalate "\n" (writeTorrcLines a lines) ++ "\n"

/-! ## File-system trace of `write_torrc` / `backup_torrc` -/

/-- File-system operations the script can perform on the config path.
`copy` is `shutil.copy2`, `writeText` is `Path.write_text` (an in-place,
non-atomic write), `rename` is an atomic `os.rename`/`Path.rename`
(present in the vocabulary so that its absence from the trace is
expressible; `tor.py` never performs one). -/
inductive FsOp where
  | copy : String → String → FsOp
  | writeText : String → String → FsOp
  | rename : String → String → FsOp
deriving DecidableEq, Repr

/-- `TORRC = Path("/etc/tor/torrc")`. -/
def TORRC : String := "/etc/tor/torrc"

/-- `BACKUP_DIR = Path("/var/backups/mojenx")`. -/
def BACKUP_DIR : String := "/var/backups/mojenx"

/-- Zero-pad to two digits, as `strftime` does for `%m %d %H %M %S`. -/
def pad2 (n : Nat) : String := if n < 10 then "0" ++ toString n else toString n

/-- Zero-pad to four digits, as `strftime` does for `%Y`. -/
def pad4 (n : Nat) : String :=
  if n < 10 then "000" ++ toString n
  else if n < 100 then "00" ++ toString n
  else if n < 1000 then "0" ++ toString n
  else toString n

/-- `time.strftime("%Y%m%d-%H%M%S")` as a function of the clock fields. -/
def fmtTimestamp (y mo d h mi s : Nat) : String :=
  pad4 y ++ pad2 mo ++ pad2 d ++ "-" ++ pad2 h ++ pad2 mi ++ pad2 s

/-- The backup file name `f"torrc.{ts}.bak"` built by `backup_torrc`. -/
def backupName (ts : String) : String := "torrc." ++ ts ++ ".bak"

/-- The operations of `backup_torrc`: one copy into the backup directory
when the config file exists, nothing otherwise. -/
def backupOps (torrcExists : Bool) (ts : String) : List FsOp :=
  if torrcExists then [FsOp.copy TORRC (BACKUP_DIR ++ "/" ++ backupName ts)] else []

/-- The file-system trace of one `write_torrc` call: `backup_torrc()`
followed by `TORRC.write_text("\n".join(out) + "\n")`. -/
def writeTorrcOps (torrcExists : Bool) (ts : String) (a : WriteArgs) (lines : List String) :
    List FsOp :=
  backupOps torrcExists ts ++ [FsOp.writeText TORRC (torrcContent a lines)]

/-- Discriminator for the atomic-rename operation. -/
def FsOp.isRename : FsOp → Bool
  | .rename _ _ => true
  | _ => false

/-! ## Lemmas about the string primitives -/

theorem dropWhile_all_false {p : Char → Bool} :
    ∀ {l : List Char}, (∀ c ∈ l, p c = false) → l.dropWhile p = l
  | [], _ => rfl
  | c :: cs, h => by
    simp only [List.dropWhile_cons, h c (by simp), Bool.false_eq_true, if_false]

theorem wordsAux_nonws :
    ∀ (a cur : List Char), (∀ c ∈ a, pyIsSpace c = false) →
      wordsAux cur a = if (cur.reverse ++ a).isEmpty then [] else [cur.reverse ++ a] := by
  intro a
  induction a with
  | nil =>
    intro cur _
    simp [wordsAux, List.isEmpty_iff]
  | cons c a ih =>
    intro cur h
    have hc : pyIsSpace c = false := h c (by simp)
    have h' : ∀ d ∈ a, pyIsSpace d = false := fun d hd => h d (by simp [hd])
    have step : wordsAux cur (c :: a) = wordsAux (c :: cur) a := by
      simp [wordsAux, hc]
    rw [step, ih (c :: cur) h']
    simp [List.isEmpty_iff, List.append_assoc]

theorem wordsAux_break (s : Char) (hs : pyIsSpace s = true) (b : List Char) :
    ∀ (a cur : List Char), (∀ c ∈ a, pyIsSpace c = false) → cur.reverse ++ a ≠ [] →
      wordsAux cur (a ++ s :: b) = (cur.reverse ++ a) :: wordsAux [] b := by
  intro a
  induction a with
  | nil =>
    intro cur _ hne
    have hcur : cur.isEmpty = false := by
      simp only [List.append_nil] at hne
      simp [List.isEmpty_iff, hne]
      intro hc
      exact hne (by simp [hc])
    simp [wordsAux, hs, hcur]
  | cons c a ih =>
    intro cur h hne
    have hc : pyIsSpace c = false := h c (by simp)
    have h' : ∀ d ∈ a, pyIsSpace d = false := fun d hd => h d (by simp [hd])
    have hne' : (c :: cur).reverse ++ a ≠ [] := by simp
    have step : wordsAux cur ((c :: a) ++ s :: b) = wordsAux (c :: cur) (a ++ s :: b) := by
      simp [wordsAux, hc]
    rw [step, ih (c :: cur) h' hne']
    simp [List.append_assoc]

theorem stripData_emit (kd : List Char) (vd : List Char) (hne : kd ≠ [])
    (hns : ∀ c ∈ kd, pyIsSpace c = false) :
    stripData (kd ++ ' ' :: vd) = kd ∨
    ∃ w : List Char, stripData (kd ++ ' ' :: vd) = kd ++ ' ' :: w := by
  obtain ⟨c, rest, rfl⟩ : ∃ c rest, kd = c :: rest := by
    cases kd with
    | nil => exact absurd rfl hne
    | cons c rest => exact ⟨c, rest, rfl⟩
  have hrev : ∀ d ∈ (c :: rest).reverse, pyIsSpace d = false := by
    intro d hd; exact hns d (List.mem_reverse.mp hd)
  have hL : stripLData ((c :: rest) ++ ' ' :: vd) = (c :: rest) ++ ' ' :: vd := by
    simp [stripLData, List.cons_append, List.dropWhile_cons, hns c (by simp)]
  unfold stripData
  rw [hL]
  unfold stripRData
  have hrw : ((c :: rest) ++ ' ' :: vd).reverse = (vd.reverse ++ [' ']) ++ (c :: rest).reverse := by
    simp [List.reverse_append]
  rw [hrw]
  cases hv : vd.reverse.dropWhile pyIsSpace with
  | nil =>
    left
    have h1 : (vd.reverse ++ [' ']).dropWhile pyIsSpace = [] := by
      rw [List.dropWhile_append, hv]
      simp [pyIsSpace]
    rw [List.dropWhile_append, h1]
    simp only [List.isEmpty_nil, if_true]
    rw [dropWhile_all_false hrev, List.reverse_reverse]
  | cons d ds =>
    right
    refine ⟨(d :: ds).reverse, ?_⟩
    have h1 : (vd.reverse ++ [' ']).dropWhile pyIsSpace = (d :: ds) ++ [' '] := by
      rw [List.dropWhile_append, hv]
      simp
    rw [List.dropWhile_append, h1]
    simp [List.reverse_append]

theorem keyOf_eval (l : List Char) :
    keyOf (⟨l⟩ : String) =
      (match wordsAux [] (lowerData (stripData l)) with
       | [] => ""
       | w :: _ => (⟨w⟩ : String)) := rfl

theorem keyOf_emit (kd : List Char) (v : String) (hne : kd ≠ [])
    (hns : ∀ c ∈ kd, pyIsSpace c = false)
    (hnsl : ∀ c ∈ lowerData kd, pyIsSpace c = false) :
    keyOf (⟨kd ++ ' ' :: v.data⟩ : String) = (⟨lowerData kd⟩ : String) := by
  have hlne : lowerData kd ≠ [] := by
    cases kd with
    | nil => exact absurd rfl hne
    | cons c rest => simp [lowerData]
  rcases stripData_emit kd v.data hne hns with h | ⟨w, h⟩
  · rw [keyOf_eval, h, wordsAux_nonws (lowerData kd) [] hnsl]
    simp [List.isEmpty_iff, hlne]
  · have hsp : Char.toLower ' ' = ' ' := by decide
    have hmap : lowerData (kd ++ ' ' :: w) = lowerData kd ++ ' ' :: lowerData w := by
      simp [lowerData, hsp]
    rw [keyOf_eval, h, hmap,
      wordsAux_break ' ' (by decide) (lowerData w) (lowerData kd) [] hnsl (by simpa using hlne)]
    simp

/-! ## Keys of the emitted lines -/

theorem keyOf_SocksPort (v : String) : keyOf ("SocksPort " ++ v) = "socksport" :=
  keyOf_emit "SocksPort".data v (by decide) (by decide) (by decide)

theorem keyOf_ControlPort (v : String) : keyOf ("ControlPort " ++ v) = "controlport" :=
  keyOf_emit "ControlPort".data v (by decide) (by decide) (by decide)

theorem keyOf_CookieAuthentication (v : String) :
    keyOf ("CookieAuthentication " ++ v) = "cookieauthentication" :=
  keyOf_emit "CookieAuthentication".data v (by decide) (by decide) (by decide)

theorem keyOf_CookieAuthFile (v : String) : keyOf ("CookieAuthFile " ++ v) = "cookieauthfile" :=
  keyOf_emit "CookieAuthFile".data v (by decide) (by decide) (by decide)

theorem keyOf_ExitNodes (v : String) : keyOf ("ExitNodes " ++ v) = "exitnodes" :=
  keyOf_emit "ExitNodes".data v (by decide) (by decide) (by decide)

theorem keyOf_StrictNodes (v : String) : keyOf ("StrictNodes " ++ v) = "strictnodes" :=
  keyOf_emit "StrictNodes".data v (by decide) (by decide) (by decide)

theorem keyOf_UseBridges (v : String) : keyOf ("UseBridges " ++ v) = "usebridges" :=
  keyOf_emit "UseBridges".data v (by decide) (by decide) (by decide)

theorem keyOf_Bridge (v : String) : keyOf ("Bridge " ++ v) = "bridge" :=
  keyOf_emit "Bridge".data v (by decide) (by decide) (by decide)

theorem sockSeg_keys (p : Option Int) (st : ReadState) :
    ∀ l ∈ sockSeg p st, keyOf l = "socksport" := by
  intro l hl
  rcases p with _ | q
  · simp only [sockSeg, List.mem_singleton] at hl
    exact hl ▸ keyOf_SocksPort _
  · simp only [sockSeg] at hl
    split at hl <;> (simp only [List.mem_singleton] at hl; exact hl ▸ keyOf_SocksPort _)

theorem ctrlSeg_keys (p : Option Int) (st : ReadState) :
    ∀ l ∈ ctrlSeg p st, keyOf l = "controlport" := by
  intro l hl
  rcases p with _ | q
  · simp only [ctrlSeg, List.mem_singleton] at hl
    exact hl ▸ keyOf_ControlPort _
  · simp only [ctrlSeg] at hl
    split at hl <;> (simp only [List.mem_singleton] at hl; exact hl ▸ keyOf_ControlPort _)

theorem cookieAuthSeg_keys (o : Option Bool) :
    ∀ l ∈ cookieAuthSeg o, keyOf l = "cookieauthentication" := by
  intro l hl
  rcases o with _ | b
  · simp [cookieAuthSeg] at hl
  · simp only [cookieAuthSeg, List.mem_singleton] at hl
    exact hl ▸ keyOf_CookieAuthentication _

theorem cookieFileSeg_keys (o : Option String) :
    ∀ l ∈ cookieFileSeg o, keyOf l = "cookieauthfile" := by
  intro l hl
  rcases o with _ | f
  · simp [cookieFileSeg] at hl
  · simp only [cookieFileSeg] at hl
    split at hl
    · simp only [List.mem_singleton] at hl
      exact hl ▸ keyOf_CookieAuthFile _
    · simp at hl

theorem exitSeg_keys (o : Option String) : ∀ l ∈ exitSeg o, keyOf l = "exitnodes" := by
  intro l hl
  rcases o with _ | e
  · simp [exitSeg] at hl
  · simp only [exitSeg, List.mem_singleton] at hl
    exact hl ▸ keyOf_ExitNodes _

theorem strictSeg_keys (o : Option Bool) : ∀ l ∈ strictSeg o, keyOf l = "strictnodes" := by
  intro l hl
  rcases o with _ | b
  · simp [strictSeg] at hl
  · simp only [strictSeg, List.mem_singleton] at hl
    exact hl ▸ keyOf_StrictNodes _

theorem useBridgesSeg_keys (o : Option Bool) (st : ReadState) :
    ∀ l ∈ useBridgesSeg o st, keyOf l = "usebridges" := by
  intro l hl
  simp only [useBridgesSeg, List.mem_singleton] at hl
  exact hl ▸ keyOf_UseBridges _

theorem bridgeSeg_keys (o : Option (List String)) : ∀ l ∈ bridgeSeg o, keyOf l = "bridge" := by
  intro l hl
  rcases o with _ | bs
  · simp [bridgeSeg] at hl
  · simp only [bridgeSeg] at hl
    split at hl
    · simp at hl
    · obtain ⟨b, _, rfl⟩ := List.mem_map.mp hl
      exact keyOf_Bridge b

theorem optSeg_keys (o : Bool) :
    ∀ l ∈ optSeg o, keyOf l = "avoiddiskwrites" ∨ keyOf l = "clientuseipv6" ∨
      keyOf l = "clientpreferipv6or" := by
  intro l hl
  cases o with
  | false => simp [optSeg] at hl
  | true =>
    simp only [optSeg, if_true, List.mem_cons, List.mem_singleton, List.not_mem_nil] at hl
    rcases hl with rfl | rfl | rfl | h
    · left; decide
    · right; left; decide
    · right; right; decide
    · simp at h

/-- Every line appended by `write_torrc`'s second phase carries a recognized
key, so the first pass of a later rewrite would consume it again. -/
theorem emitted_recognized (a : WriteArgs) (st : ReadState) :
    ∀ l ∈ emittedLines a st, SKIP_KEYS.contains (keyOf l) = true := by
  intro l hl
  simp only [emittedLines, List.append_assoc, List.mem_append] at hl
  rcases hl with h | h | h | h | h | h | h | h | h
  · rw [sockSeg_keys _ _ _ h]; decide
  · rw [ctrlSeg_keys _ _ _ h]; decide
  · rw [cookieAuthSeg_keys _ _ h]; decide
  · rw [cookieFileSeg_keys _ _ h]; decide
  · rw [exitSeg_keys _ _ h]; decide
  · rw [strictSeg_keys _ _ h]; decide
  · rw [useBridgesSeg_keys _ _ _ h]; decide
  · rw [bridgeSeg_keys _ _ h]; decide
  · rcases optSeg_keys _ _ h with h' | h' | h' <;> rw [h'] <;> decide

/-! ## Occurrences of a recognized key in an output -/

/-- The output lines whose key (as `write_torrc`'s first pass computes it)
is `k`. -/
def filterKey (out : List String) (k : String) : List String :=
  out.filter (fun l => keyOf l == k)

/-- How many output lines carry the key `k`. -/
def countKey (out : List String) (k : String) : Nat := (filterKey out k).length

theorem filterKey_append (x y : List String) (k : String) :
    filterKey (x ++ y) k = filterKey x k ++ filterKey y k := by
  simp [filterKey, List.filter_append]

theorem countKey_append (x y : List String) (k : String) :
    countKey (x ++ y) k = countKey x k + countKey y k := by
  simp [countKey, filterKey_append]

theorem filterKey_eq_nil (seg : List String) (k : String)
    (h : ∀ l ∈ seg, keyOf l ≠ k) : filterKey seg k = [] := by
  simp only [filterKey, List.filter_eq_nil_iff]
  intro l hl
  simp [h l hl]

theorem countKey_eq_zero (seg : List String) (k : String)
    (h : ∀ l ∈ seg, keyOf l ≠ k) : countKey seg k = 0 := by
  simp [countKey, filterKey_eq_nil seg k h]

theorem countKey_le_length (seg : List String) (k : String) : countKey seg k ≤ seg.length :=
  List.length_filter_le _ _

/-- Lines kept by the first pass never carry a recognized key. -/
theorem kept_unrecognized (lines : List String) :
    ∀ l ∈ keptLines lines, SKIP_KEYS.contains (keyOf l) = false := by
  intro l hl
  have := (List.mem_filter.mp hl).2
  simpa using this

theorem countKey_kept (lines : List String) (k : String) (hk : k ∈ SKIP_KEYS) :
    countKey (keptLines lines) k = 0 := by
  apply countKey_eq_zero
  intro l hl heq
  have h : List.elem k SKIP_KEYS = false := heq ▸ kept_unrecognized lines l hl
  rw [List.elem_eq_true_of_mem hk] at h
  exact Bool.noConfusion h

/-! ## Claim C3: unrecognized lines pass through verbatim and in order -/

/-- Claim C3: for every input line list and every combination of overrides,
the subsequence of output lines that are unrecognized (in the sense of
`write_torrc`'s first pass) is exactly the subsequence of unrecognized
input lines — verbatim and in the original relative order.  The second
conjunct checks the spec's worked example: input `SocksPort 9050 / Foo bar`
with override `exitnodes="{de}"` yields an output containing `Foo bar`
unchanged, an `ExitNodes {de}` line, and `SocksPort 9050`. -/
theorem unrecognized_lines_preserved :
    (∀ (a : WriteArgs) (lines : List String),
      (writeTorrcLines a lines).filter (fun raw => !(SKIP_KEYS.contains (keyOf raw))) =
        lines.filter (fun raw => !(SKIP_KEYS.contains (keyOf raw)))) ∧
    ("Foo bar" ∈ writeTorrcLines { exitnodes := some "{de}" } ["SocksPort 9050", "Foo bar"] ∧
     "ExitNodes {de}" ∈ writeTorrcLines { exitnodes := some "{de}" } ["SocksPort 9050", "Foo bar"] ∧
     "SocksPort 9050" ∈ writeTorrcLines { exitnodes := some "{de}" } ["SocksPort 9050", "Foo bar"]) := by
  constructor
  · intro a lines
    rw [writeTorrcLines, List.filter_append]
    have h2 : (emittedLines a (readTorrc lines)).filter
        (fun raw => !(SKIP_KEYS.contains (keyOf raw))) = [] := by
      rw [List.filter_eq_nil_iff]
      intro l hl
      simp only [emitted_recognized a (readTorrc lines) l hl, Bool.not_true,
        Bool.false_eq_true, not_false_eq_true]
    rw [h2, List.append_nil, keptLines, List.filter_filter]
    apply List.filter_congr
    intro l _
    simp
  · refine ⟨?_, ?_, ?_⟩ <;> decide

theorem countKey_seg_zero_of_ne (seg : List String) (K k : String)
    (hK : ∀ l ∈ seg, keyOf l = K) (h : K ≠ k) : countKey seg k = 0 :=
  countKey_eq_zero seg k (fun l hl => by rw [hK l hl]; exact h)

theorem countKey_seg_bound (seg : List String) (K k : String)
    (hK : ∀ l ∈ seg, keyOf l = K) (hlen : seg.length ≤ 1) :
    countKey seg k ≤ if K = k then 1 else 0 := by
  by_cases h : K = k
  · rw [if_pos h]
    exact le_trans (countKey_le_length _ _) hlen
  · rw [if_neg h, countKey_seg_zero_of_ne seg K k hK h]

theorem sockSeg_len (p : Option Int) (st : ReadState) : (sockSeg p st).length ≤ 1 := by
  rcases p with _ | q
  · simp [sockSeg]
  · by_cases hq : q = 0 <;> simp [sockSeg, hq]

theorem ctrlSeg_len (p : Option Int) (st : ReadState) : (ctrlSeg p st).length ≤ 1 := by
  rcases p with _ | q
  · simp [ctrlSeg]
  · by_cases hq : q = 0 <;> simp [ctrlSeg, hq]

theorem cookieAuthSeg_len (o : Option Bool) : (cookieAuthSeg o).length ≤ 1 := by
  unfold cookieAuthSeg
  rcases o with _ | b <;> simp

theorem cookieFileSeg_len (o : Option String) : (cookieFileSeg o).length ≤ 1 := by
  rcases o with _ | f
  · simp [cookieFileSeg]
  · by_cases hf : f = "" <;> simp [cookieFileSeg, hf]

theorem exitSeg_len (o : Option String) : (exitSeg o).length ≤ 1 := by
  unfold exitSeg
  rcases o with _ | e <;> simp

theorem strictSeg_len (o : Option Bool) : (strictSeg o).length ≤ 1 := by
  unfold strictSeg
  rcases o with _ | b <;> simp

theorem useBridgesSeg_len (o : Option Bool) (st : ReadState) :
    (useBridgesSeg o st).length ≤ 1 := by
  simp [useBridgesSeg]

theorem countKey_optSeg_zero (o : Bool) (k : String)
    (h1 : "avoiddiskwrites" ≠ k) (h2 : "clientuseipv6" ≠ k)
    (h3 : "clientpreferipv6or" ≠ k) : countKey (optSeg o) k = 0 :=
  countKey_eq_zero _ _ (fun l hl => by
    rcases optSeg_keys o l hl with h | h | h <;> rw [h] <;> assumption)

theorem countKey_optSeg_bound (o : Bool) (k : String) :
    countKey (optSeg o) k ≤
      if "avoiddiskwrites" = k then 1
      else if "clientuseipv6" = k then 1
      else if "clientpreferipv6or" = k then 1 else 0 := by
  by_cases e1 : "avoiddiskwrites" = k
  · rw [if_pos e1, ← e1]
    cases o <;> decide
  · rw [if_neg e1]
    by_cases e2 : "clientuseipv6" = k
    · rw [if_pos e2, ← e2]
      cases o <;> decide
    · rw [if_neg e2]
      by_cases e3 : "clientpreferipv6or" = k
      · rw [if_pos e3, ← e3]
        cases o <;> decide
      · rw [if_neg e3, countKey_optSeg_zero o k e1 e2 e3]

/-! ## Claim C7: each recognized key appears at most once in the output -/

/-- Claim C7: for every input file content and every call to `write_torrc`,
each recognized key other than the repeatable `Bridge` key occurs on at
most one output line (the first pass removes every prior occurrence and
the second phase emits each such key at most once). -/
theorem recognized_key_at_most_once (a : WriteArgs) (lines : List String) (k : String)
    (hk : k ∈ SKIP_KEYS) (hb : k ≠ "bridge") :
    countKey (writeTorrcLines a lines) k ≤ 1 := by
  rw [writeTorrcLines, countKey_append, countKey_kept lines k hk, emittedLines]
  repeat rw [countKey_append]
  have B1 := countKey_seg_bound (sockSeg a.port (readTorrc lines)) "socksport" k
    (sockSeg_keys _ _) (sockSeg_len _ _)
  have B2 := countKey_seg_bound (ctrlSeg a.control_port (readTorrc lines)) "controlport" k
    (ctrlSeg_keys _ _) (ctrlSeg_len _ _)
  have B3 := countKey_seg_bound (cookieAuthSeg a.cookie_auth) "cookieauthentication" k
    (cookieAuthSeg_keys _) (cookieAuthSeg_len _)
  have B4 := countKey_seg_bound (cookieFileSeg a.cookie_file) "cookieauthfile" k
    (cookieFileSeg_keys _) (cookieFileSeg_len _)
  have B5 := countKey_seg_bound (exitSeg a.exitnodes) "exitnodes" k
    (exitSeg_keys _) (exitSeg_len _)
  have B6 := countKey_seg_bound (strictSeg a.strict_nodes) "strictnodes" k
    (strictSeg_keys _) (strictSeg_len _)
  have B7 := countKey_seg_bound (useBridgesSeg a.use_bridges (readTorrc lines)) "usebridges" k
    (useBridgesSeg_keys _ _) (useBridgesSeg_len _ _)
  have B8 : countKey (bridgeSeg a.bridges) k = 0 :=
    countKey_seg_zero_of_ne _ "bridge" k (bridgeSeg_keys _) (fun e => hb e.symm)
  have B9 := countKey_optSeg_bound a.optimizations k
  fin_cases hk <;> simp_all

/-- Concrete instantiation of `recognized_key_at_most_once`: two input
`SocksPort` lines collapse to at most one in the output. -/
theorem recognized_key_at_most_once_witness :
    countKey (writeTorrcLines {} ["SocksPort 9050", "SocksPort 9055", "Foo bar"])
      "socksport" ≤ 1 :=
  recognized_key_at_most_once {} ["SocksPort 9050", "SocksPort 9055", "Foo bar"]
    "socksport" (by decide) (by decide)

/-! ## Claim C2: non-overridden recognized keys are dropped (code bug) -/

/-- Claim C2 fails on the code: a `write_torrc` call with no overrides
removes existing `ExitNodes` and `StrictNodes` lines instead of
retaining them.  The first pass deletes them and the second phase
re-emits `ExitNodes` only when the `exitnodes` argument is not `None`
(never from the prior file's value, although `read_torrc` extracts it —
last conjunct) and `StrictNodes` only when `strict_nodes` is not `None`. -/
theorem nonoverridden_keys_dropped :
    writeTorrcLines {} ["ExitNodes {de}", "StrictNodes 1"] =
      ["SocksPort 9050", "ControlPort 9051", "UseBridges 0"] ∧
    "ExitNodes {de}" ∉ writeTorrcLines {} ["ExitNodes {de}", "StrictNodes 1"] ∧
    "StrictNodes 1" ∉ writeTorrcLines {} ["ExitNodes {de}", "StrictNodes 1"] ∧
    countKey (writeTorrcLines {} ["ExitNodes {de}", "StrictNodes 1"]) "exitnodes" = 0 ∧
    (readTorrc ["ExitNodes {de}", "StrictNodes 1"]).exitnodes = "{de}" := by
  refine ⟨?_, ?_, ?_, ?_, ?_⟩ <;> decide

/-! ## Claim C10: a zero port override is treated as no override -/

theorem sockSeg_zero (st : ReadState) : sockSeg (some 0) st = sockSeg none st := by
  simp [sockSeg]

theorem ctrlSeg_zero (st : ReadState) : ctrlSeg (some 0) st = ctrlSeg none st := by
  simp [ctrlSeg]

/-- Claim C10: `write_torrc` tests `if port:` / `if control_port:`, so a
zero override is indistinguishable from no override — the output keeps the
prior file's `SocksPort`/`ControlPort` value, and the defaults 9050/9051
stand in when the input had none. -/
theorem zero_port_override_ignored :
    (∀ (a : WriteArgs) (lines : List String),
      writeTorrcLines { a with port := some 0 } lines =
        writeTorrcLines { a with port := none } lines) ∧
    (∀ (a : WriteArgs) (lines : List String),
      writeTorrcLines { a with control_port := some 0 } lines =
        writeTorrcLines { a with control_port := none } lines) ∧
    (∀ (a : WriteArgs) (lines : List String),
      ("SocksPort " ++ toString (readTorrc lines).socks) ∈
        writeTorrcLines { a with port := some 0 } lines) ∧
    (∀ (a : WriteArgs) (lines : List String),
      ("ControlPort " ++ toString (readTorrc lines).control) ∈
        writeTorrcLines { a with control_port := some 0 } lines) ∧
    (readTorrc []).socks = 9050 ∧ (readTorrc []).control = 9051 := by
  refine ⟨?_, ?_, ?_, ?_, by decide, by decide⟩
  · intro a lines
    simp [writeTorrcLines, emittedLines, sockSeg_zero]
  · intro a lines
    simp [writeTorrcLines, emittedLines, ctrlSeg_zero]
  · intro a lines
    rw [writeTorrcLines, emittedLines, sockSeg_zero]
    simp [sockSeg]
  · intro a lines
    rw [writeTorrcLines, emittedLines, ctrlSeg_zero]
    simp [ctrlSeg]

/-! ## Claim C5: `set_exitnodes` -/

/-- `VALID_COUNTRIES` from `tor.py` (a set in Python; only membership is
used). -/
def VALID_COUNTRIES : List String :=
  ["tr", "de", "us", "fr", "gb", "uk", "at", "be", "ro", "ca", "sg", "jp", "ie", "fi",
   "es", "pl", "nl", "se", "ch", "it"]

/-- `good = [c.lower() for c in codes if c.lower() in VALID_COUNTRIES]`. -/
def goodCodes (codes : List String) : List String :=
  (codes.filter (fun c => VALID_COUNTRIES.contains (pyLower c))).map pyLower

/-- `s = "".join(f"{{{c}}}" for c in good)`. -/
def exitNodesArg (codes : List String) : String :=
  String.join ((goodCodes codes).map (fun c => "\x7b" ++ c ++ "\x7d"))

/-- `set_exitnodes`: `none` models the early return (`print` and no write);
`some out` models `write_torrc(exitnodes=s)` producing output lines `out`
(the subsequent service restart has no effect on the file). -/
def set_exitnodes (codes : List String) (lines : List String) : Option (List String) :=
  if (goodCodes codes).isEmpty then none
  else some (writeTorrcLines { exitnodes := some (exitNodesArg codes) } lines)

theorem filterKey_kept (lines : List String) (k : String) (hk : k ∈ SKIP_KEYS) :
    filterKey (keptLines lines) k = [] := by
  apply filterKey_eq_nil
  intro l hl heq
  have h : List.elem k SKIP_KEYS = false := heq ▸ kept_unrecognized lines l hl
  rw [List.elem_eq_true_of_mem hk] at h
  exact Bool.noConfusion h

theorem filterKey_seg_nil_of_ne (seg : List String) (K k : String)
    (hK : ∀ l ∈ seg, keyOf l = K) (h : K ≠ k) : filterKey seg k = [] :=
  filterKey_eq_nil seg k (fun l hl => by rw [hK l hl]; exact h)

theorem filterKey_optSeg_exit (o : Bool) : filterKey (optSeg o) "exitnodes" = [] :=
  filterKey_eq_nil _ _ (fun l hl => by
    rcases optSeg_keys o l hl with h | h | h <;> rw [h] <;> decide)

/-- When `write_torrc` is called with `exitnodes=e`, the lines of the output
carrying the `exitnodes` key are exactly one: `ExitNodes e`. -/
theorem filterKey_exit_out (a : WriteArgs) (lines : List String) (e : String)
    (he : a.exitnodes = some e) :
    filterKey (writeTorrcLines a lines) "exitnodes" = ["ExitNodes " ++ e] := by
  rw [writeTorrcLines, filterKey_append, filterKey_kept lines _ (by decide), emittedLines]
  repeat rw [filterKey_append]
  rw [filterKey_seg_nil_of_ne _ "socksport" _ (sockSeg_keys _ _) (by decide),
    filterKey_seg_nil_of_ne _ "controlport" _ (ctrlSeg_keys _ _) (by decide),
    filterKey_seg_nil_of_ne _ "cookieauthentication" _ (cookieAuthSeg_keys _) (by decide),
    filterKey_seg_nil_of_ne _ "cookieauthfile" _ (cookieFileSeg_keys _) (by decide),
    filterKey_seg_nil_of_ne _ "strictnodes" _ (strictSeg_keys _) (by decide),
    filterKey_seg_nil_of_ne _ "usebridges" _ (useBridgesSeg_keys _ _) (by decide),
    filterKey_seg_nil_of_ne _ "bridge" _ (bridgeSeg_keys _) (by decide),
    filterKey_optSeg_exit]
  rw [he]
  simp [exitSeg, filterKey, List.filter, keyOf_ExitNodes]

/-- Claim C5: `set_exitnodes` keeps exactly the allow-listed codes,
lowercased and in input order, writes a single `ExitNodes {c1}{c2}...`
line built from them, and performs no write at all when every code is
invalid. -/
theorem set_exitnodes_spec (codes : List String) (lines : List String) :
    ((∀ c ∈ codes, VALID_COUNTRIES.contains (pyLower c) = false) →
      set_exitnodes codes lines = none) ∧
    (goodCodes codes ≠ [] →
      ∃ out, set_exitnodes codes lines = some out ∧
        filterKey out "exitnodes" = ["ExitNodes " ++ exitNodesArg codes]) ∧
    goodCodes codes =
      (codes.filter (fun c => VALID_COUNTRIES.contains (pyLower c))).map pyLower := by
  refine ⟨?_, ?_, rfl⟩
  · intro h
    have hg : goodCodes codes = [] := by
      rw [goodCodes, List.map_eq_nil_iff, List.filter_eq_nil_iff]
      intro c hc hmem
      rw [h c hc] at hmem
      exact Bool.noConfusion hmem
    simp [set_exitnodes, hg]
  · intro h
    refine ⟨writeTorrcLines { exitnodes := some (exitNodesArg codes) } lines, ?_, ?_⟩
    · rw [set_exitnodes, if_neg (by simpa [List.isEmpty_iff] using h)]
    · exact filterKey_exit_out _ _ _ rfl

/-- Concrete instantiation of `set_exitnodes_spec`: the mixed-case input
`["DE", "xx"]` keeps `de` only, and the all-invalid input `["zz"]` writes
nothing. -/
theorem set_exitnodes_spec_witness :
    (∃ out, set_exitnodes ["DE", "xx"] [] = some out ∧
      filterKey out "exitnodes" = ["ExitNodes " ++ exitNodesArg ["DE", "xx"]]) ∧
    set_exitnodes ["zz"] [] = none := by
  constructor
  · exact (set_exitnodes_spec ["DE", "xx"] []).2.1 (by decide)
  · exact (set_exitnodes_spec ["zz"] []).1 (by decide)

/-! ## Claims C1 and C6: the file-system behaviour of `write_torrc` -/

/-- Claim C1 fails on the code: the trace of a `write_torrc` call is the
(optional) backup copy followed by a single direct `write_text` on the
target path.  No temporary file is written and no rename is performed
(`tor.py` imports `tempfile` but never uses it), so an interruption during
the one `write_text` can leave a truncated target. -/
theorem write_torrc_writes_in_place :
    ∀ (ex : Bool) (ts : String) (a : WriteArgs) (lines : List String),
      writeTorrcOps ex ts a lines =
        backupOps ex ts ++ [FsOp.writeText TORRC (torrcContent a lines)] ∧
      (writeTorrcOps ex ts a lines).all (fun op => !op.isRename) = true := by
  intro ex ts a lines
  refine ⟨rfl, ?_⟩
  cases ex <;> simp [writeTorrcOps, backupOps, FsOp.isRename]

/-- Claim C6: when a prior config file exists, the write trace begins with a
copy of it into the fixed backup directory under the name
`torrc.YYYYmmdd-HHMMSS.bak` (original filename plus timestamp), before the
`write_text`; when no prior file exists, no copy appears in the trace. -/
theorem backup_created_iff_existed :
    ∀ (a : WriteArgs) (lines : List String) (y mo d h mi s : Nat) (ts : String),
      writeTorrcOps true (fmtTimestamp y mo d h mi s) a lines =
        [FsOp.copy TORRC
          (BACKUP_DIR ++ "/" ++ ("torrc." ++ fmtTimestamp y mo d h mi s ++ ".bak")),
         FsOp.writeText TORRC (torrcContent a lines)] ∧
      writeTorrcOps false ts a lines = [FsOp.writeText TORRC (torrcContent a lines)] := by
  intro a lines y mo d h mi s ts
  exact ⟨rfl, rfl⟩

/-! ## Claim C4: `_auth_control` / `send_newnym` fail closed -/

/-- Environment of one control-port interaction.  `pathExists` models
`os.path.exists`; the `Except` fields model the fallible steps inside the
`try` blocks: reading the cookie file, `socket.create_connection`, and the
`recv` after `AUTHENTICATE` resp. after `SIGNAL NEWNYM` (a `sendall` or
`recv` exception, or a timeout, is `.error`).  The cookie bytes are carried
opaquely: their hex encoding is sent to the server but never branches the
control flow.  The control port that `send_newnym` reads from the config
only parameterises `create_connection` and is absorbed into `connect`. -/
structure ControlWorld where
  pathExists : String → Bool
  readCookie : Except Unit (List Nat)
  connect : Except Unit Unit
  authResp : Except Unit String
  signalResp : Except Unit String

/-- The candidate cookie paths of `_find_cookie_file`, in order. -/
def cookie_candidates : List String :=
  ["/run/tor/control.authcookie", "/run/tor/control_auth_cookie",
   "/var/lib/tor/control_auth_cookie", "/var/lib/tor/control.authcookie"]

/-- `_find_cookie_file`: the first candidate that exists. -/
def find_cookie_file (w : ControlWorld) : Option String :=
  cookie_candidates.find? w.pathExists

/-- The `"250 OK" in resp` test. -/
def hasSuccess (resp : String) : Bool := containsSub "250 OK".data resp.data

/-- `_auth_control` (the socket it returns is abstracted to `()`): `None`
on a missing cookie file, on any exception while reading the cookie,
connecting, sending or receiving, and on a response without `250 OK`. -/
def auth_control (w : ControlWorld) : Option Unit :=
  match find_cookie_file w with
  | none => none
  | some cf =>
    if !(w.pathExists cf) then none
    else
      match w.readCookie with
      | .error _ => none
      | .ok _ =>
        match w.connect with
        | .error _ => none
        | .ok _ =>
          match w.authResp with
          | .error _ => none
          | .ok resp => if hasSuccess resp then some () else none

/-- `send_newnym`: `False` unless authentication succeeded and the
`SIGNAL NEWNYM` response contains `250 OK`. -/
def send_newnym (w : ControlWorld) : Bool :=
  match auth_control w with
  | none => false
  | some _ =>
    match w.signalResp with
    | .error _ => false
    | .ok resp => hasSuccess resp

/-- Claim C4: authentication and NEWNYM fail closed.  `auth_control`
succeeds exactly when a cookie file was found, every fallible step
succeeded and the `AUTHENTICATE` response contains `250 OK`; `send_newnym`
returns `True` exactly when authentication succeeded and the
`SIGNAL NEWNYM` response also contains `250 OK`; and in particular an
absent cookie file forces failure of both. -/
theorem control_port_fails_closed :
    ∀ w : ControlWorld,
      (auth_control w = some () ↔
        (∃ cf, find_cookie_file w = some cf ∧ w.pathExists cf = true) ∧
        (∃ ck, w.readCookie = .ok ck) ∧ w.connect = .ok () ∧
        (∃ r, w.authResp = .ok r ∧ hasSuccess r = true)) ∧
      (send_newnym w = true ↔
        auth_control w = some () ∧ (∃ r, w.signalResp = .ok r ∧ hasSuccess r = true)) ∧
      (find_cookie_file w = none → auth_control w = none ∧ send_newnym w = false) := by
  intro w
  refine ⟨?_, ?_, ?_⟩
  · unfold auth_control
    cases hf : find_cookie_file w with
    | none => simp [hf]
    | some cf =>
      cases hp : w.pathExists cf with
      | false => simp [hp]
      | true =>
        cases hr : w.readCookie with
        | error e => simp [hp, hr]
        | ok ck =>
          cases hc : w.connect with
          | error e => simp [hp, hr, hc]
          | ok u =>
            cases ha : w.authResp with
            | error e => simp [hp, hr, hc, ha]
            | ok resp =>
              cases hs : hasSuccess resp with
              | false => simp [hp, hr, hc, ha, hs]
              | true => simp [hp, hr, hc, ha, hs]
  · unfold send_newnym
    cases hA : auth_control w with
    | none => simp
    | some u =>
      cases hsr : w.signalResp with
      | error e => simp [hsr]
      | ok resp => simp [hsr]
  · intro hf
    have hA : auth_control w = none := by
      unfold auth_control
      rw [hf]
    refine ⟨hA, ?_⟩
    unfold send_newnym
    rw [hA]

/-- Concrete instantiation of `control_port_fails_closed`: in a world with
no cookie file anywhere, authentication yields `None` and `send_newnym`
yields `False`. -/
def noCookieWorld : ControlWorld :=
  ⟨fun _ => false, .error (), .error (), .error (), .error ()⟩

theorem control_port_fails_closed_witness :
    auth_control noCookieWorld = none ∧ send_newnym noCookieWorld = false :=
  (control_port_fails_closed noCookieWorld).2.2 rfl

/-! ## Claim C8: the auto-rotation loop -/

/-- Outer `while not stop: send_newnym(); sleep-phase` loop of
`_auto_rotate_loop`, abstracted over a per-iteration stop reading
`stop : Nat → Bool` and per-iteration NEWNYM outcome `send : Nat → Bool`;
returns the list of NEWNYM outcomes attempted within `fuel` iterations
starting at iteration `k`.  A failed attempt only determines the list
entry — the control flow never branches on it. -/
def auto_rotate_iters (stop : Nat → Bool) (send : Nat → Bool) : Nat → Nat → List Bool
  | _, 0 => []
  | k, fuel + 1 =>
    if stop k then [] else send k :: auto_rotate_iters stop send (k + 1) fuel

/-- The inter-attempt sleep phase `for _ in range(interval*60): if
stop.is_set(): break; time.sleep(1)` under a discrete clock: time is in
milliseconds, each `sleep(1)` advances it by 1000, `is_set` checks are
instantaneous and occur at the start of each granule, and one final check
(the outer `while` condition) follows the loop.  `σ` is the instant the
stop event is set; the result is the instant at which the loop observes
it, starting the phase at time `t` with `n` granules remaining. -/
def sleep_phase_exit (σ : Nat) : Nat → Nat → Nat
  | 0, t => t
  | n + 1, t => if σ ≤ t then t else sleep_phase_exit σ n (t + 1000)

theorem sleep_phase_exit_bounds (σ : Nat) :
    ∀ (n t : Nat), σ ≤ t + 1000 * n → t < σ + 1000 →
      σ ≤ sleep_phase_exit σ n t ∧ sleep_phase_exit σ n t < σ + 1000 := by
  intro n
  induction n with
  | zero =>
    intro t h1 h2
    simp only [Nat.mul_zero, Nat.add_zero] at h1
    exact ⟨h1, h2⟩
  | succ n ih =>
    intro t h1 h2
    by_cases hle : σ ≤ t
    · simp [sleep_phase_exit, hle, h2]
    · have hlt : t < σ := Nat.lt_of_not_le hle
      have step : sleep_phase_exit σ (n + 1) t = sleep_phase_exit σ n (t + 1000) := by
        simp [sleep_phase_exit, hle]
      rw [step]
      exact ih (t + 1000) (by omega) (by omega)

/-- Claim C8: (1) the number and identity of rotation iterations depends
only on the stop schedule, never on whether a NEWNYM attempt failed — a
failure cannot stop the loop; (2) under the discrete clock model of
`sleep_phase_exit`, once the stop event is set during a sleep phase the
loop observes it strictly less than 1000 ms (one sleep granule) later,
rather than after the remaining `interval*60` granules. -/
theorem auto_rotate_loop_spec :
    (∀ (stop f g : Nat → Bool) (k fuel : Nat),
      (auto_rotate_iters stop f k fuel).length = (auto_rotate_iters stop g k fuel).length) ∧
    (∀ (σ n : Nat), σ ≤ 1000 * n →
      σ ≤ sleep_phase_exit σ n 0 ∧ sleep_phase_exit σ n 0 < σ + 1000) := by
  constructor
  · intro stop f g k fuel
    induction fuel generalizing k with
    | zero => rfl
    | succ fuel ih =>
      by_cases hs : stop k
      · simp [auto_rotate_iters, hs]
      · simp [auto_rotate_iters, hs, ih (k + 1)]
  · intro σ n h
    exact sleep_phase_exit_bounds σ n 0 (by omega) (by omega)

/-- Concrete instantiation of `auto_rotate_loop_spec`: with the stop event
raised 1500 ms into a 2-granule sleep phase, the loop exits at 2000 ms —
at most one granule after the event, far before the full interval. -/
theorem auto_rotate_loop_spec_witness :
    ((auto_rotate_iters (fun k => k ≥ 3) (fun _ => false) 0 10).length =
      (auto_rotate_iters (fun k => k ≥ 3) (fun _ => true) 0 10).length) ∧
    (1500 ≤ sleep_phase_exit 1500 2 0 ∧ sleep_phase_exit 1500 2 0 < 1500 + 1000) :=
  ⟨auto_rotate_loop_spec.1 (fun k => k ≥ 3) (fun _ => false) (fun _ => true) 0 10,
   auto_rotate_loop_spec.2 1500 2 (by decide)⟩

/-! ## Claim C9: `fastest_country` -/

/-- The default candidate pool of `fastest_country`. -/
def defaultPool : List String :=
  ["us", "de", "nl", "gb", "fr", "ca", "se", "ch", "fi", "pl", "es"]

/-- The candidate loop of `fastest_country`: `probe c` is the latency
measured by `get_tor_ip` after switching the exit to `c` (`none` models a
timeout or connection error, p. the `lat is not None` test); the
accumulator is `(best, best_latency)`.  A strictly smaller latency
replaces the incumbent. -/
def fc_loop (probe : String → Option Nat) : List String → Option (String × Nat) →
    Option (String × Nat)
  | [], best => best
  | c :: rest, best =>
    match probe c with
    | none => fc_loop probe rest best
    | some lat =>
      match best with
      | none => fc_loop probe rest (some (c, lat))
      | some (b, bl) =>
        if lat < bl then fc_loop probe rest (some (c, lat)) else fc_loop probe rest (some (b, bl))

/-- `pool = sample or [...]` (Python `or`: an empty list also falls back),
then `pool = [c for c in pool if c in VALID_COUNTRIES]`. -/
def fc_pool (sample : Option (List String)) : List String :=
  (match sample with
   | some s => if s.isEmpty then defaultPool else s
   | none => defaultPool).filter (fun c => VALID_COUNTRIES.contains c)

/-- `fastest_country`: `some b` models `set_exitnodes([best])` being invoked
with `b`, `none` models no exit-node setting being applied (empty pool, or
every probe failed).  The final `if best:` is Python string truthiness. -/
def fastest_country (sample : Option (List String)) (probe : String → Option Nat) :
    Option String :=
  let pool := fc_pool sample
  if pool.isEmpty then none
  else
    match fc_loop probe pool none with
    | some (b, _) => if b ≠ "" then some b else none
    | none => none

theorem fc_loop_ok (probe : String → Option Nat) :
    ∀ (pool : List String) (acc : Option (String × Nat)) (b : String) (l : Nat),
      (∀ b' l', acc = some (b', l') → probe b' = some l') →
      fc_loop probe pool acc = some (b, l) →
      probe b = some l ∧ (b ∈ pool ∨ acc = some (b, l)) := by
  intro pool
  induction pool with
  | nil =>
    intro acc b l hacc h
    simp only [fc_loop] at h
    exact ⟨hacc b l h, Or.inr h⟩
  | cons c rest ih =>
    intro acc b l hacc h
    simp only [fc_loop] at h
    cases hp : probe c with
    | none =>
      rw [hp] at h
      rcases ih acc b l hacc h with ⟨h1, h2 | h2⟩
      · exact ⟨h1, Or.inl (List.mem_cons_of_mem c h2)⟩
      · exact ⟨h1, Or.inr h2⟩
    | some lat =>
      rw [hp] at h
      cases hacc' : acc with
      | none =>
        rw [hacc'] at h
        have hnext : ∀ b' l', some (c, lat) = some (b', l') → probe b' = some l' := by
          intro b' l' he
          obtain ⟨rfl, rfl⟩ : c = b' ∧ lat = l' := by
            constructor <;> (injection he with he'; cases he'; rfl)
          exact hp
        rcases ih (some (c, lat)) b l hnext h with ⟨h1, h2 | h2⟩
        · exact ⟨h1, Or.inl (List.mem_cons_of_mem c h2)⟩
        · have : c = b := by injection h2 with h2'; cases h2'; rfl
          exact ⟨h1, Or.inl (this ▸ List.mem_cons_self c rest)⟩
      | some p =>
        obtain ⟨bb, bbl⟩ := p
        rw [hacc'] at h
        have hsplit :
            (if lat < bbl then fc_loop probe rest (some (c, lat))
             else fc_loop probe rest (some (bb, bbl))) = some (b, l) := h
        by_cases hcmp : lat < bbl
        · rw [if_pos hcmp] at hsplit
          have hnext : ∀ b' l', some (c, lat) = some (b', l') → probe b' = some l' := by
            intro b' l' he
            obtain ⟨rfl, rfl⟩ : c = b' ∧ lat = l' := by
              constructor <;> (injection he with he'; cases he'; rfl)
            exact hp
          rcases ih (some (c, lat)) b l hnext hsplit with ⟨h1, h2 | h2⟩
          · exact ⟨h1, Or.inl (List.mem_cons_of_mem c h2)⟩
          · have : c = b := by injection h2 with h2'; cases h2'; rfl
            exact ⟨h1, Or.inl (this ▸ List.mem_cons_self c rest)⟩
        · rw [if_neg hcmp] at hsplit
          have hnext : ∀ b' l', some (bb, bbl) = some (b', l') → probe b' = some l' := by
            intro b' l' he
            exact hacc b' l' (hacc' ▸ he)
          rcases ih (some (bb, bbl)) b l hnext hsplit with ⟨h1, h2 | h2⟩
          · exact ⟨h1, Or.inl (List.mem_cons_of_mem c h2)⟩
          · exact ⟨h1, Or.inr (hacc' ▸ h2)⟩

theorem fc_loop_le_acc (probe : String → Option Nat) :
    ∀ (pool : List String) (bb : String) (bbl : Nat) (b : String) (l : Nat),
      fc_loop probe pool (some (bb, bbl)) = some (b, l) → l ≤ bbl := by
  intro pool
  induction pool with
  | nil =>
    intro bb bbl b l h
    simp only [fc_loop] at h
    obtain ⟨rfl, rfl⟩ : bb = b ∧ bbl = l := by
      constructor <;> (injection h with h'; cases h'; rfl)
    exact Nat.le_refl _
  | cons c rest ih =>
    intro bb bbl b l h
    simp only [fc_loop] at h
    cases hp : probe c with
    | none =>
      rw [hp] at h
      exact ih bb bbl b l h
    | some lat =>
      rw [hp] at h
      have hsplit :
          (if lat < bbl then fc_loop probe rest (some (c, lat))
           else fc_loop probe rest (some (bb, bbl))) = some (b, l) := h
      by_cases hcmp : lat < bbl
      · rw [if_pos hcmp] at hsplit
        exact Nat.le_trans (ih c lat b l hsplit) (Nat.le_of_lt hcmp)
      · rw [if_neg hcmp] at hsplit
        exact ih bb bbl b l hsplit

theorem fc_loop_min (probe : String → Option Nat) :
    ∀ (pool : List String) (acc : Option (String × Nat)) (b : String) (l : Nat),
      fc_loop probe pool acc = some (b, l) →
      ∀ d ∈ pool, ∀ m, probe d = some m → l ≤ m := by
  intro pool
  induction pool with
  | nil =>
    intro acc b l _ d hd
    exact absurd hd (List.not_mem_nil d)
  | cons c rest ih =>
    intro acc b l h d hd m hm
    simp only [fc_loop] at h
    cases hp : probe c with
    | none =>
      rw [hp] at h
      rcases List.mem_cons.mp hd with rfl | hd'
      · rw [hp] at hm
        exact absurd hm (by simp)
      · exact ih acc b l h d hd' m hm
    | some lat =>
      rw [hp] at h
      cases hacc : acc with
      | none =>
        rw [hacc] at h
        rcases List.mem_cons.mp hd with rfl | hd'
        · have hm' : m = lat := by
            rw [hp] at hm
            injection hm with h'
            exact h'.symm
          exact hm' ▸ fc_loop_le_acc probe rest d lat b l h
        · exact ih (some (c, lat)) b l h d hd' m hm
      | some p =>
        obtain ⟨bb, bbl⟩ := p
        rw [hacc] at h
        have hsplit :
            (if lat < bbl then fc_loop probe rest (some (c, lat))
             else fc_loop probe rest (some (bb, bbl))) = some (b, l) := h
        by_cases hcmp : lat < bbl
        · rw [if_pos hcmp] at hsplit
          rcases List.mem_cons.mp hd with rfl | hd'
          · have hm' : m = lat := by
              rw [hp] at hm
              injection hm with h'
              exact h'.symm
            exact hm' ▸ fc_loop_le_acc probe rest d lat b l hsplit
          · exact ih (some (c, lat)) b l hsplit d hd' m hm
        · rw [if_neg hcmp] at hsplit
          rcases List.mem_cons.mp hd with rfl | hd'
          · have hm' : m = lat := by
              rw [hp] at hm
              injection hm with h'
              exact h'.symm
            have h1 : l ≤ bbl := fc_loop_le_acc probe rest bb bbl b l hsplit
            have h2 : bbl ≤ lat := Nat.le_of_not_lt hcmp
            omega
          · exact ih (some (bb, bbl)) b l hsplit d hd' m hm

theorem fc_loop_all_failed (probe : String → Option Nat) :
    ∀ pool : List String, (∀ c ∈ pool, probe c = none) → fc_loop probe pool none = none := by
  intro pool
  induction pool with
  | nil => intro _; rfl
  | cons c rest ih =>
    intro h
    simp only [fc_loop]
    rw [h c (by simp)]
    exact ih (fun d hd => h d (by simp [hd]))

theorem fc_loop_isSome_of_acc (probe : String → Option Nat) :
    ∀ (pool : List String) (bb : String) (bbl : Nat),
      fc_loop probe pool (some (bb, bbl)) ≠ none := by
  intro pool
  induction pool with
  | nil => intro bb bbl; simp [fc_loop]
  | cons c rest ih =>
    intro bb bbl
    simp only [fc_loop]
    cases hp : probe c with
    | none => exact ih bb bbl
    | some lat =>
      show (if lat < bbl then fc_loop probe rest (some (c, lat))
            else fc_loop probe rest (some (bb, bbl))) ≠ none
      by_cases hcmp : lat < bbl
      · rw [if_pos hcmp]; exact ih c lat
      · rw [if_neg hcmp]; exact ih bb bbl

theorem fc_loop_success_isSome (probe : String → Option Nat) :
    ∀ pool : List String, (∃ c ∈ pool, probe c ≠ none) →
      fc_loop probe pool none ≠ none := by
  intro pool
  induction pool with
  | nil =>
    rintro ⟨c, hc, _⟩
    exact absurd hc (List.not_mem_nil c)
  | cons c rest ih =>
    rintro ⟨d, hd, hdp⟩
    simp only [fc_loop]
    cases hp : probe c with
    | some lat => exact fc_loop_isSome_of_acc probe rest c lat
    | none =>
      rcases List.mem_cons.mp hd with rfl | hd'
      · exact absurd hp hdp
      · exact ih ⟨d, hd', hdp⟩

/-! Claim C9: the main theorem about `fastest_country`. -/

/-- Claim C9: whenever `fastest_country` applies a country (`some b`), that
country is a valid pool member whose probe succeeded with the minimum
observed latency among all pool candidates' successful probes — a failed
probe is never selected; and when every probe fails, nothing is applied. -/
theorem fastest_country_spec (sample : Option (List String)) (probe : String → Option Nat) :
    (∀ b, fastest_country sample probe = some b →
      b ∈ fc_pool sample ∧
      ∃ l, probe b = some l ∧
        ∀ d ∈ fc_pool sample, ∀ m, probe d = some m → l ≤ m) ∧
    ((∀ c ∈ fc_pool sample, probe c = none) → fastest_country sample probe = none) ∧
    ((∃ c ∈ fc_pool sample, probe c ≠ none) →
      ∃ b, fastest_country sample probe = some b) := by
  refine ⟨?_, ?_, ?_⟩
  · intro b h
    unfold fastest_country at h
    by_cases hp : (fc_pool sample).isEmpty
    · rw [if_pos hp] at h
      exact absurd h (by simp)
    · rw [if_neg hp] at h
      cases hl : fc_loop probe (fc_pool sample) none with
      | none =>
        rw [hl] at h
        exact absurd h (by simp)
      | some p =>
        obtain ⟨bb, bl⟩ := p
        rw [hl] at h
        have hsplit : (if bb ≠ "" then some bb else none) = some b := h
        by_cases hb : bb ≠ ""
        · rw [if_pos hb] at hsplit
          have hbb : bb = b := by injection hsplit with h'
          subst hbb
          have hinit : ∀ (b' : String) (l' : Nat), (none : Option (String × Nat)) = some (b', l') →
              probe b' = some l' := by
            intro b' l' he
            exact absurd he (by simp)
          rcases fc_loop_ok probe (fc_pool sample) none bb bl hinit hl with ⟨h1, h2 | h2⟩
          · exact ⟨h2, bl, h1, fc_loop_min probe (fc_pool sample) none bb bl hl⟩
          · exact absurd h2 (by simp)
        · rw [if_neg hb] at hsplit
          exact absurd hsplit (by simp)
  · intro hall
    unfold fastest_country
    by_cases hp : (fc_pool sample).isEmpty
    · rw [if_pos hp]
    · rw [if_neg hp, fc_loop_all_failed probe _ hall]
  · rintro ⟨c, hc, hcp⟩
    unfold fastest_country
    have hpne : ¬(fc_pool sample).isEmpty = true := by
      cases hfp : fc_pool sample with
      | nil => rw [hfp] at hc; exact absurd hc (List.not_mem_nil c)
      | cons x xs => simp [hfp]
    rw [if_neg hpne]
    cases hl : fc_loop probe (fc_pool sample) none with
    | none => exact absurd hl (fc_loop_success_isSome probe _ ⟨c, hc, hcp⟩)
    | some p =>
      obtain ⟨bb, bl⟩ := p
      have hinit : ∀ (b' : String) (l' : Nat), (none : Option (String × Nat)) = some (b', l') →
          probe b' = some l' := by
        intro b' l' he
        exact absurd he (by simp)
      have hmem : bb ∈ fc_pool sample := by
        rcases fc_loop_ok probe (fc_pool sample) none bb bl hinit hl with ⟨_, h2 | h2⟩
        · exact h2
        · exact absurd h2 (by simp)
      have hval : bb ∈ VALID_COUNTRIES := by
        have := (List.mem_filter.mp hmem).2
        exact List.mem_of_elem_eq_true this
      have hne : bb ≠ "" := by
        have hx : ∀ x ∈ VALID_COUNTRIES, x ≠ "" := by decide
        exact hx bb hval
      refine ⟨bb, ?_⟩
      show (if bb ≠ "" then some bb else none) = some bb
      rw [if_pos hne]

/-- Probe used by the concrete instantiation of `fastest_country_spec`. -/
def probeW : String → Option Nat :=
  fun c => if c = "de" then some 80 else if c = "fr" then some 50 else none

/-- Concrete instantiation of `fastest_country_spec`: with `de` at 80 ms,
`fr` at 50 ms and `zz` filtered out by the allow-list, `fr` is selected and
is minimal; with an all-failing pool, nothing is applied; with one
successful probe, something is applied. -/
theorem fastest_country_spec_witness :
    ("fr" ∈ fc_pool (some ["de", "fr", "zz"]) ∧
      ∃ l, probeW "fr" = some l ∧
        ∀ d ∈ fc_pool (some ["de", "fr", "zz"]), ∀ m, probeW d = some m → l ≤ m) ∧
    fastest_country (some ["us"]) (fun _ => none) = none ∧
    (∃ b, fastest_country (some ["de", "fr", "zz"]) probeW = some b) :=
  ⟨(fastest_country_spec (some ["de", "fr", "zz"]) probeW).1 "fr" (by decide),
   (fastest_country_spec (some ["us"]) (fun _ => none)).2.1 (fun c _ => rfl),
   (fastest_country_spec (some ["de", "fr", "zz"]) probeW).2.2 (by decide)⟩

end MojenxTor
